import Mathlib

/-!
Verification of the LCFA course-schedule generator against its specification.

The repository delegates schedule construction to a language model; the
deterministic code around that call is embedded here:

* `timesOverlap` / `checkTimeConflicts` — the string-level conflict predicate
  (ollama service, lines 258–415);
* `convertTo12Hour` — the 24-hour → 12-hour clock converter
  (gemini.service.ts, lines 8–43);
* the post-response pipeline of the ollama service `generateSchedules`
  (validate-and-fix, enrichment, duplicate filtering, final packaging,
  lines 421–1123), modelled as a pure function of the courses and of the
  parsed model response.

JavaScript strings are embedded as `String`, JS numbers that hold class
numbers as `Nat`, JS truthiness of a string as `≠ ""`, a thrown exception as
`Except.error`.  Display-only fields (title, instructor, location, credits…)
are opaque metadata never inspected by any branch of the embedded code and
are omitted from the records.
-/

/-- JS whitespace for the purposes of `\s` and `trim`. -/
def isJsSpace (c : Char) : Bool :=
  c = ' ' || c = '\t' || c = '\n' || c = '\r' || c = '\x0b' || c = '\x0c'

/-- Digit test, the JS regex class `\d`. -/
def isDig (c : Char) : Bool :=
  '0' ≤ c && c ≤ '9'

/-- Numeric value of a digit character. -/
def dv (c : Char) : Nat :=
  c.toNat - '0'.toNat

/-- `isStart sub l` is true when `sub` is an initial run of `l`. -/
def isStart : List Char → List Char → Bool
  | [], _ => true
  | _ :: _, [] => false
  | a :: as, b :: bs => a = b && isStart as bs

/-- `subList sub l` is true when `sub` occurs contiguously inside `l`
(JS `String.prototype.includes`). -/
def subList (sub : List Char) : List Char → Bool
  | [] => sub.isEmpty
  | b :: bs => isStart sub (b :: bs) || subList sub bs

/-- JS `s.includes(sub)`. -/
def containsSub (sub s : String) : Bool :=
  subList sub.data s.data

/-- The check `time.includes('AM') || time.includes('PM') || …` used by both
converters. -/
def includesAmPm (s : String) : Bool :=
  containsSub "AM" s || containsSub "PM" s || containsSub "am" s || containsSub "pm" s

/-- Leading-digit run value for `jsParseInt`. -/
def digitsVal (l : List Char) : Option Nat :=
  let ds := l.takeWhile isDig
  if ds.isEmpty then none
  else some (ds.foldl (fun a c => 10 * a + dv c) 0)

/-- JS `parseInt(s, 10)`: skip leading whitespace, optional sign, then a
leading digit run; `NaN` (here `none`) when no digit is found. -/
def jsParseInt (s : String) : Option Int :=
  match s.data.dropWhile isJsSpace with
  | '-' :: r => (digitsVal r).map (fun n => -(n : Int))
  | '+' :: r => (digitsVal r).map (fun n => (n : Int))
  | r => (digitsVal r).map (fun n => (n : Int))

/-- JS `s.trim()`: strip whitespace from both ends. -/
def jsTrim (s : String) : String :=
  String.mk (((s.data.dropWhile isJsSpace).reverse.dropWhile isJsSpace).reverse)

/-- JS `s.split(':')` on the character list: every colon separates, and the
result always has at least one (possibly empty) component. -/
def splitColon : List Char → List (List Char)
  | [] => [[]]
  | ':' :: r => [] :: splitColon r
  | c :: r =>
    match splitColon r with
    | h :: t => (c :: h) :: t
    | [] => [[c]]

/-- The `hour12` / `ampm` computation (gemini.service.ts lines 28–42) and
the `hour12:minutes AM|PM` template of the converting branch of
`convertTo12Hour`. -/
def buildTime12 (hour24 : Int) (minutes : String) : String :=
  let hour12 : Int :=
    if hour24 = 0 then 12
    else if hour24 = 12 then 12
    else if hour24 > 12 then hour24 - 12
    else hour24
  let ampm : String :=
    if hour24 = 0 then "AM"
    else if hour24 = 12 then "PM"
    else if hour24 > 12 then "PM"
    else "AM"
  toString hour12 ++ ":" ++ minutes ++ " " ++ ampm

/-- gemini.service.ts lines 8–43, `convertTo12Hour`.  Returns the input
unchanged when it is empty, already carries an AM/PM marker, has no
parseable `hours:minutes` split, or `parseInt` yields `NaN`; otherwise
rebuilds the time as `hour12:minutes AM|PM`. -/
def convertTo12Hour (time24 : String) : String :=
  if time24 = "" then time24
  else if includesAmPm time24 then time24
  else
    match (splitColon (jsTrim time24).data).map String.mk with
    | hours :: minutes :: _ =>
      if hours = "" then time24
      else if minutes = "" then time24
      else
        match jsParseInt hours with
        | none => time24
        | some hour24 => buildTime12 hour24 minutes
    | _ => time24

/-- Greedy munch of the day alternation `(?:M|Tu|W|Th|F|S)+`: returns the
consumed characters and the rest.  The token set is uniquely decodable
(`Tu`/`Th` are the only two-character tokens and `T` alone matches nothing),
so the greedy munch coincides with the backtracking regex. -/
def dayTokens : List Char → List Char × List Char
  | 'T' :: 'u' :: r => let (c, rest) := dayTokens r; ('T' :: 'u' :: c, rest)
  | 'T' :: 'h' :: r => let (c, rest) := dayTokens r; ('T' :: 'h' :: c, rest)
  | 'M' :: r => let (c, rest) := dayTokens r; ('M' :: c, rest)
  | 'W' :: r => let (c, rest) := dayTokens r; ('W' :: c, rest)
  | 'F' :: r => let (c, rest) := dayTokens r; ('F' :: c, rest)
  | 'S' :: r => let (c, rest) := dayTokens r; ('S' :: c, rest)
  | l => ([], l)

/-- ollama service lines 264–272, `extractDays`: the capture of
`^((?:M|Tu|W|Th|F|S)+)\s`, or `""` when the regex does not match. -/
def extractDays (timeStr : String) : String :=
  let (c, rest) := dayTokens timeStr.data
  if c.isEmpty then ""
  else
    match rest with
    | r :: _ => if isJsSpace r then String.mk c else ""
    | [] => ""

/-- The `timeStr.substring(dayMatch[0].length)` step of `extractTimeRange`
(lines 277–281): drop the day prefix and the single `\s` it captured, or
return the string unchanged when the day regex does not match. -/
def stripDays (l : List Char) : List Char :=
  let (c, rest) := dayTokens l
  if c.isEmpty then l
  else
    match rest with
    | r :: rest2 => if isJsSpace r then rest2 else l
    | [] => l

/-- Match `(\d{1,2}):` at the current position, with the regex backtracking
of `\d{1,2}` resolved: two digits are taken when a colon follows them,
one digit when a colon follows it. -/
def readHour (l : List Char) : Option (Nat × List Char) :=
  match l with
  | a :: rest1 =>
    if isDig a then
      match rest1 with
      | b :: rest2 =>
        if b = ':' then some (dv a, rest2)
        else if isDig b then
          match rest2 with
          | c :: rest3 => if c = ':' then some (10 * dv a + dv b, rest3) else none
          | [] => none
        else none
      | [] => none
    else none
  | [] => none

/-- Match `(\d{2})` at the current position. -/
def readMin (l : List Char) : Option (Nat × List Char) :=
  match l with
  | a :: b :: r => if isDig a && isDig b then some (10 * dv a + dv b, r) else none
  | _ => none

/-- Match `(AM|PM)` at the current position; `true` means PM. -/
def readAmPm : List Char → Option (Bool × List Char)
  | 'A' :: 'M' :: r => some (false, r)
  | 'P' :: 'M' :: r => some (true, r)
  | _ => none

/-- Attempt of `/(\d{1,2}):(\d{2})-(\d{1,2}):(\d{2})/` at one position,
returning start and end in minutes since midnight (`parseTime`,
lines 288–296). -/
def matchTimeAt (l : List Char) : Option (Nat × Nat) :=
  match readHour l with
  | none => none
  | some (h1, r1) =>
    match readMin r1 with
    | none => none
    | some (m1, r2) =>
      match r2 with
      | '-' :: r3 =>
        match readHour r3 with
        | none => none
        | some (h2, r4) =>
          match readMin r4 with
          | none => none
          | some (m2, _) => some (h1 * 60 + m1, h2 * 60 + m2)
      | _ => none

/-- Unanchored search for the 24-hour pattern: first match anywhere. -/
def searchTime : List Char → Option (Nat × Nat)
  | [] => none
  | a :: rest =>
    match matchTimeAt (a :: rest) with
    | some v => some v
    | none => searchTime rest

/-- The 12-hour conversion of `parseTime` (lines 302–307):
`PM && h ≠ 12 → h + 12`, `AM && h = 12 → 0`. -/
def hour12to24 (pm : Bool) (h : Nat) : Nat :=
  if pm then (if h = 12 then h else h + 12)
  else (if h = 12 then 0 else h)

/-- Attempt of `/(\d{1,2}):(\d{2})(AM|PM)-(\d{1,2}):(\d{2})(AM|PM)/` at one
position. -/
def matchTime12At (l : List Char) : Option (Nat × Nat) :=
  match readHour l with
  | none => none
  | some (h1, r1) =>
    match readMin r1 with
    | none => none
    | some (m1, r2) =>
      match readAmPm r2 with
      | none => none
      | some (p1, r3) =>
        match r3 with
        | '-' :: r4 =>
          match readHour r4 with
          | none => none
          | some (h2, r5) =>
            match readMin r5 with
            | none => none
            | some (m2, r6) =>
              match readAmPm r6 with
              | none => none
              | some (p2, _) =>
                some (hour12to24 p1 h1 * 60 + m1, hour12to24 p2 h2 * 60 + m2)
        | _ => none

/-- Unanchored search for the 12-hour pattern. -/
def searchTime12 : List Char → Option (Nat × Nat)
  | [] => none
  | a :: rest =>
    match matchTime12At (a :: rest) with
    | some v => some v
    | none => searchTime12 rest

/-- ollama service lines 274–316, `extractTimeRange`: strip the day prefix,
then try the 24-hour pattern, then the 12-hour pattern; `null` when neither
matches. -/
def extractTimeRange (timeStr : String) : Option (Nat × Nat) :=
  let timePart := stripDays timeStr.data
  match searchTime timePart with
  | some v => some v
  | none => searchTime12 timePart

/-- ollama service lines 330–351, `normalizeDays`: split a day string into
day tokens, reading `Tu`, `Th`, a standalone `T`, and otherwise one
character per token. -/
def normalizeDays : List Char → List String
  | [] => []
  | 'T' :: 'u' :: r => "Tu" :: normalizeDays r
  | 'T' :: 'h' :: r => "Th" :: normalizeDays r
  | 'T' :: r => "T" :: normalizeDays r
  | c :: r => String.mk [c] :: normalizeDays r

/-- ollama service lines 258–388, `timesOverlap`: the string-level conflict
test between two `"days start-end"` strings.  Empty or `TBA` strings, a
missing day prefix on either side, disjoint day sets, or an unparseable
time range on either side all yield `false`; otherwise the half-open
intervals are compared with strict inequalities. -/
def timesOverlap (time1 time2 : String) : Bool :=
  if time1 = "" || time2 = "" || time1 = "TBA" || time2 = "TBA" then false
  else
    let days1 := extractDays time1
    let days2 := extractDays time2
    if days1 = "" || days2 = "" then false
    else
      let days1Array := normalizeDays days1.data
      let days2Array := normalizeDays days2.data
      let daysOverlap := days1Array.any (fun d => days2Array.contains d)
      if !daysOverlap then false
      else
        match extractTimeRange time1, extractTimeRange time2 with
        | some r1, some r2 => decide (r1.1 < r2.2) && decide (r2.1 < r1.2)
        | _, _ => false

/-! ## The weekly time-block model and the overlap predicate (claim C2)

The conflict predicate of the code is string-level; the spec states it on
abstract time blocks (a set of weekdays plus start/end minutes).  We render
a block into the exact `"MWF 09:40-10:35"` format the code builds from the
catalog data (`daysString = meeting.days.join('')`,
`timeString = startTime + "-" + endTime`) and compare `timesOverlap` on the
rendered strings with the predicate the spec describes. -/

/-- The six weekday codes the day regex `(?:M|Tu|W|Th|F|S)` recognises. -/
inductive Weekday
  | mon | tue | wed | thu | fri | sat
deriving DecidableEq, Repr

/-- The catalog day code of a weekday. -/
def dayCode : Weekday → String
  | .mon => "M" | .tue => "Tu" | .wed => "W" | .thu => "Th" | .fri => "F" | .sat => "S"

/-- Character form of `dayCode`. -/
def dayChars : Weekday → List Char
  | .mon => ['M'] | .tue => ['T', 'u'] | .wed => ['W']
  | .thu => ['T', 'h'] | .fri => ['F'] | .sat => ['S']

/-- `days.join('')` at character level. -/
def daysChars : List Weekday → List Char
  | [] => []
  | d :: r => dayChars d ++ daysChars r

/-- One weekly recurring meeting window: a set of days and start/end clock
times in minutes since midnight. -/
structure TimeBlock where
  days : List Weekday
  start : Nat
  stop : Nat
deriving DecidableEq, Repr

/-- Digit character of a value below ten. -/
def digitChar (n : Nat) : Char :=
  if n = 0 then '0' else if n = 1 then '1' else if n = 2 then '2'
  else if n = 3 then '3' else if n = 4 then '4' else if n = 5 then '5'
  else if n = 6 then '6' else if n = 7 then '7' else if n = 8 then '8' else '9'

/-- `HH:MM` rendering of a minutes-since-midnight value, zero-padded to two
digits as in the catalog data. -/
def timeChars (t : Nat) : List Char :=
  [digitChar (t / 60 / 10), digitChar (t / 60 % 10), ':',
   digitChar (t % 60 / 10), digitChar (t % 60 % 10)]

/-- The `"MWF 09:40-10:35"` string the ollama service builds for a block. -/
def blockChars (b : TimeBlock) : List Char :=
  daysChars b.days ++ ' ' :: (timeChars b.start ++ '-' :: timeChars b.stop)

/-- String form of `blockChars`. -/
def renderBlock (b : TimeBlock) : String :=
  String.mk (blockChars b)

/-- A block with at least one day and times inside one day. -/
def ValidBlock (b : TimeBlock) : Prop :=
  b.days ≠ [] ∧ b.start < 1440 ∧ b.stop < 1440

instance (b : TimeBlock) : Decidable (ValidBlock b) := by
  unfold ValidBlock; infer_instance

/-- Modelled from the spec (§4.2 `blocksConflict`): true iff the day sets
intersect and the half-open intervals intersect under strict inequalities.
This is the refinement target the code-level predicate is compared with. -/
def blocksConflictSpec (a b : TimeBlock) : Bool :=
  (a.days.any fun d => b.days.contains d) &&
    decide (a.start < b.stop) && decide (b.start < a.stop)

/-! ## The schedule-generation pipeline (ollama service, lines 421–1123)

`generateSchedules` builds a prompt from the courses, queries the model,
parses the response, validates and repairs each returned schedule
(one class per course), filters duplicates, and returns the result —
throwing on an error object, a non-array response, or an all-duplicates
outcome.  Everything after the network call is deterministic in the courses
and the parsed response, and is embedded below.  Display-only fields
(title, instructor, location, credits, building, room) never influence any
branch and are omitted; `Except.error` models a thrown `Error`. -/

/-- One meeting record of a catalog class (`meetings[i]`): the day codes,
and the raw start/end time strings. -/
structure Meeting where
  days : List String
  startTime : String
  endTime : String
deriving DecidableEq, Repr

/-- A catalog class as stored on a course (`course.classes[i]`). -/
structure CourseClass where
  subject : String
  catalogNumber : String
  classNumber : Nat
  days : String
  times : String
  meetings : List Meeting
deriving DecidableEq, Repr

/-- A course: its identity and candidate classes. -/
structure Course where
  subject : String
  catalogNumber : String
  classes : List CourseClass
deriving DecidableEq, Repr

/-- A class as it appears inside the model's JSON response. -/
structure RawClass where
  subject : String
  catalogNumber : String
  classNumber : Nat
deriving DecidableEq, Repr

/-- A schedule as it appears inside the model's JSON response. -/
structure RawSchedule where
  scheduleNumber : Nat
  classes : List RawClass
deriving DecidableEq, Repr

/-- An enriched output class (`ScheduleClass` after `mapToFullClassData`). -/
structure ScheduleClass where
  subject : String
  catalogNumber : String
  classNumber : Nat
  days : String
  times : String
deriving DecidableEq, Repr

/-- An output schedule. -/
structure Schedule where
  scheduleNumber : Nat
  classes : List ScheduleClass
deriving DecidableEq, Repr

/-- The parsed model response: an error object, a non-array JSON value, an
unparseable body, or an array of schedules. -/
inductive ParsedResponse
  | errorObj (message : String)
  | invalidJson
  | notArray
  | schedules (l : List RawSchedule)
deriving DecidableEq, Repr

/-- The days/times extraction from the first meeting shared by the prompt
builder (lines 438–452) and `mapToFullClassData` (lines 798–815):
`daysString = meeting.days.join('')` and
`timeString = startTime + "-" + endTime` when both ends are non-blank. -/
def extractMeetingDT (meetings : List Meeting) : String × String :=
  match meetings with
  | [] => ("", "")
  | m :: _ =>
    let days := String.join m.days
    let times :=
      if m.startTime ≠ "" && m.endTime ≠ "" &&
          jsTrim m.startTime ≠ "" && jsTrim m.endTime ≠ "" then
        m.startTime ++ "-" ++ m.endTime
      else ""
    (days, times)

/-- The `days && times && times !== 'TBA' ? days + " " + times :
(times || (days ? days : 'TBA'))` combination used on both enrichment
paths (lines 766–768 and 847–849). -/
def combineDT (days times : String) : String :=
  if days ≠ "" && times ≠ "" && times ≠ "TBA" then days ++ " " ++ times
  else if times ≠ "" then times
  else if days ≠ "" then days
  else "TBA"

/-- The fallback enrichment path of `mapToFullClassData` (lines 722–788),
used when the response names a class number absent from the course: the
course's first class is used. -/
def buildFallback (fb : CourseClass) : ScheduleClass :=
  let dt := extractMeetingDT fb.meetings
  let days := if dt.1 = "" && fb.days ≠ "" then fb.days else dt.1
  let times := if dt.2 = "" && fb.times ≠ "" && fb.times ≠ "TBA" then fb.times else dt.2
  { subject := fb.subject, catalogNumber := fb.catalogNumber,
    classNumber := fb.classNumber, days := days, times := combineDT days times }

/-- The main enrichment path of `mapToFullClassData` (lines 792–876); an
empty or `TBA` time is coerced to the `TBA` placeholder (lines 830–834). -/
def buildActual (ac : CourseClass) : ScheduleClass :=
  let dt := extractMeetingDT ac.meetings
  let days := if dt.1 = "" && ac.days ≠ "" then ac.days else dt.1
  let times0 := if dt.2 = "" && ac.times ≠ "" && ac.times ≠ "TBA" then ac.times else dt.2
  let times := if times0 = "" || times0 = "TBA" then "TBA" else times0
  { subject := ac.subject, catalogNumber := ac.catalogNumber,
    classNumber := ac.classNumber, days := days, times := combineDT days times }

/-- Predicate of `courses.find`/`courses.findIndex` matching a response
class to a course (lines 703–705, 897–899). -/
def courseMatch (cls : RawClass) (c : Course) : Bool :=
  c.subject == cls.subject && c.catalogNumber == cls.catalogNumber

/-- JS `Array.prototype.findIndex`, as an `Option Nat`. -/
def findIndex (p : α → Bool) : List α → Option Nat
  | [] => none
  | a :: as => if p a then some 0 else (findIndex p as).map (· + 1)

/-- ollama service lines 701–877, `mapToFullClassData`: find the owning
course by subject and catalog number, then the class by class number;
fall back to the course's first class when the class number is unknown;
`null` when the course is unknown or empty. -/
def mapToFullClassData (courses : List Course) (cls : RawClass) : Option ScheduleClass :=
  match courses.find? (courseMatch cls) with
  | none => none
  | some course =>
    match course.classes.find? (fun c => c.classNumber == cls.classNumber) with
    | some actual => some (buildActual actual)
    | none =>
      match course.classes with
      | [] => none
      | fb :: _ => some (buildFallback fb)

/-- The literal record pushed at lines 931–948 when even the fallback
mapping fails for a missing course. -/
def literalFallback (fc : CourseClass) : ScheduleClass :=
  { subject := fc.subject, catalogNumber := fc.catalogNumber,
    classNumber := fc.classNumber, days := "", times := "TBA" }

/-- Default course used to embed JS array indexing. -/
def emptyCourse : Course := ⟨"", "", []⟩

/-- One iteration of the matched-classes loop of the wrong-length repair
branch (lines 896–914): a response class is kept when its course exists,
is not yet used, and its class number exists on that course. -/
def stepA (courses : List Course) (acc : List ScheduleClass × List Nat)
    (cls : RawClass) : List ScheduleClass × List Nat :=
  match findIndex (courseMatch cls) courses with
  | none => acc
  | some ci =>
    if acc.2.contains ci then acc
    else
      match (courses.getD ci emptyCourse).classes.find?
          (fun c => c.classNumber == cls.classNumber) with
      | none => acc
      | some _ =>
        match mapToFullClassData courses cls with
        | some f => (acc.1 ++ [f], ci :: acc.2)
        | none => acc

/-- The matched-classes loop of the wrong-length repair branch. -/
def matchedA (courses : List Course) (classes : List RawClass) :
    List ScheduleClass × List Nat :=
  classes.foldl (stepA courses) ([], [])

/-- One iteration of the matched-classes loop of the two right-length
branches (lines 969–981 and 1008–1020): no class-number precheck. -/
def stepB (courses : List Course) (acc : List ScheduleClass × List Nat)
    (cls : RawClass) : List ScheduleClass × List Nat :=
  match findIndex (courseMatch cls) courses with
  | none => acc
  | some ci =>
    if acc.2.contains ci then acc
    else
      match mapToFullClassData courses cls with
      | some f => (acc.1 ++ [f], ci :: acc.2)
      | none => acc

/-- The matched-classes loop of the right-length branches. -/
def matchedB (courses : List Course) (classes : List RawClass) :
    List ScheduleClass × List Nat :=
  classes.foldl (stepB courses) ([], [])

/-- One iteration of the missing-courses loop of the wrong-length branch
(lines 917–952): marks the index used and pushes the literal record when
the mapping fails. -/
def stepMissA (courses : List Course) (acc : List ScheduleClass × List Nat)
    (i : Nat) : List ScheduleClass × List Nat :=
  let c := courses.getD i emptyCourse
  if !(acc.2.contains i) && !c.classes.isEmpty then
    match c.classes with
    | [] => acc
    | fc :: _ =>
      match mapToFullClassData courses ⟨fc.subject, fc.catalogNumber, fc.classNumber⟩ with
      | some f => (acc.1 ++ [f], i :: acc.2)
      | none => (acc.1 ++ [literalFallback fc], i :: acc.2)
  else acc

/-- The missing-courses loop of the wrong-length branch. -/
def fixMissingA (courses : List Course) (start : List ScheduleClass × List Nat) :
    List ScheduleClass × List Nat :=
  (List.range courses.length).foldl (stepMissA courses) start

/-- One iteration of the missing-courses loops of the right-length
branches (lines 984–997 and 1023–1038): the used set is not updated and a
failed mapping is skipped. -/
def stepMissB (courses : List Course) (used : List Nat)
    (fx : List ScheduleClass) (i : Nat) : List ScheduleClass :=
  let c := courses.getD i emptyCourse
  if !(used.contains i) && !c.classes.isEmpty then
    match c.classes with
    | [] => fx
    | fc :: _ =>
      match mapToFullClassData courses ⟨fc.subject, fc.catalogNumber, fc.classNumber⟩ with
      | some f => fx ++ [f]
      | none => fx
  else fx

/-- The missing-courses loops of the right-length branches. -/
def fixMissingB (courses : List Course) (fixed : List ScheduleClass)
    (used : List Nat) : List ScheduleClass :=
  (List.range courses.length).foldl (stepMissB courses used) fixed

/-- Repair of a schedule whose class count differs from the course count
(lines 889–957). -/
def fixA (courses : List Course) (classes : List RawClass) : List ScheduleClass :=
  (fixMissingA courses (matchedA courses classes)).1

/-- Repair/enrichment of a schedule with the right class count
(lines 959–1045); the two sub-branches — distinct course keys or not —
run the same steps and differ only in logging. -/
def fixB (courses : List Course) (classes : List RawClass) : List ScheduleClass :=
  let m := matchedB courses classes
  fixMissingB courses m.1 m.2

/-- `new Set(classes.map(c => c.subject + "-" + c.catalogNumber)).size`
(lines 960–962). -/
def setSize (l : List String) : Nat :=
  (l.foldl (fun acc s => if acc.contains s then acc else s :: acc) []).length

/-- ollama service lines 880–1047: normalize schedule numbers
(`schedule.scheduleNumber || index + 1`) and repair every schedule to one
class per known course. -/
def validateAndFix (courses : List Course) (raws : List RawSchedule) : List Schedule :=
  (raws.enum.map (fun p =>
    ({ scheduleNumber := if p.2.scheduleNumber = 0 then p.1 + 1 else p.2.scheduleNumber,
       classes := p.2.classes } : RawSchedule))).map
    (fun s =>
      if s.classes.length = courses.length then
        if setSize (s.classes.map (fun c => c.subject ++ "-" ++ c.catalogNumber)) =
            courses.length then
          { scheduleNumber := s.scheduleNumber, classes := fixB courses s.classes }
        else
          { scheduleNumber := s.scheduleNumber, classes := fixB courses s.classes }
      else
        { scheduleNumber := s.scheduleNumber, classes := fixA courses s.classes })

/-- The sort key `subject + "-" + catalogNumber` (lines 1062–1063). -/
def sKey (c : ScheduleClass) : String :=
  c.subject ++ "-" ++ c.catalogNumber

/-- Lexicographic character-list order standing in for
`keyA.localeCompare(keyB)` on the ASCII keys involved. -/
def lexLe : List Char → List Char → Bool
  | [], _ => true
  | _ :: _, [] => false
  | a :: as, b :: bs =>
    if a < b then true
    else if b < a then false
    else lexLe as bs

/-- Stable insertion preserving the original order of equal keys, as the
(stable) JS `Array.prototype.sort`. -/
def sIns (x : ScheduleClass) : List ScheduleClass → List ScheduleClass
  | [] => [x]
  | y :: r => if lexLe (sKey x).data (sKey y).data then x :: y :: r else y :: sIns x r

/-- `schedule.classes.sort((a, b) => keyA.localeCompare(keyB))`
(lines 1060–1065); JS sort is stable and mutates the schedule, so the
returned schedules carry the sorted class lists. -/
def sortClasses : List ScheduleClass → List ScheduleClass
  | [] => []
  | x :: r => sIns x (sortClasses r)

/-- `classNumbers.join(',')` over a class list (lines 1066–1067). -/
def rawKey (cs : List ScheduleClass) : String :=
  String.intercalate "," (cs.map (fun c => toString c.classNumber))

/-- One iteration of the duplicate filter (lines 1056–1077): compute the
canonical key of the schedule (classes sorted by course key, class numbers
joined) and keep the schedule, with its now-sorted classes, when the key
is new. -/
def dedupStep (acc : List Schedule × List String) (sch : Schedule) :
    List Schedule × List String :=
  let sorted := sortClasses sch.classes
  let key := rawKey sorted
  if acc.2.contains key then acc
  else (acc.1 ++ [({ scheduleNumber := sch.scheduleNumber, classes := sorted } : Schedule)],
    key :: acc.2)

/-- ollama service lines 1049–1077: keep each schedule whose canonical
pick-tuple key has not been seen. -/
def dedupSchedules (l : List Schedule) : List Schedule :=
  (l.foldl dedupStep ([], [])).1

/-- The time string computed for the prompt (lines 438–457): the first
meeting's `start-end`, with the class's own `times` field as fallback. -/
def classTimeString (cls : CourseClass) : String :=
  let t0 := (extractMeetingDT cls.meetings).2
  if t0 = "" && cls.times ≠ "" && cls.times ≠ "TBA" && jsTrim cls.times ≠ "" then cls.times
  else t0

/-- The prompt builder throws for the first class with no time information
(lines 463–467); `none` when every class has a time string. -/
def firstMissingTime : List Course → Option String
  | [] => none
  | c :: rest =>
    match c.classes.find? (fun cl => classTimeString cl = "") with
    | some cl =>
      some ("Class " ++ cl.subject ++ " " ++ cl.catalogNumber ++ " #" ++
        toString cl.classNumber ++ " is missing required time information")
    | none => firstMissingTime rest

/-- ollama service lines 421–1123, `generateSchedules`, as a function of
the courses and of the parsed model response: the empty-courses guard
(line 426), the prompt-construction throw (line 466), the error-object and
non-array throws (lines 683–694), validation/repair, duplicate filtering,
and the all-duplicates throw (lines 1081–1086).  `Except.error` models a
thrown `Error`; conflict checking is skipped (lines 1088–1089). -/
def generateSchedules (courses : List Course) (resp : ParsedResponse) :
    Except String (List Schedule) :=
  if courses.length = 0 then .error "No courses provided"
  else
    match firstMissingTime courses with
    | some msg => .error msg
    | none =>
      match resp with
      | .errorObj msg => .error msg
      | .invalidJson => .error "Invalid JSON response from Ollama"
      | .notArray => .error "Expected array of schedules or error object from Ollama"
      | .schedules raws =>
        if (dedupSchedules (validateAndFix courses raws)).isEmpty then
          .error "All generated schedules were duplicates. Please try generating schedules again or check if there are enough unique class combinations available."
        else .ok (dedupSchedules (validateAndFix courses raws))

/-- ollama service lines 395–415, `checkTimeConflicts`: true when any two
classes of the schedule with usable time strings overlap. -/
def checkTimeConflicts : List ScheduleClass → Bool
  | [] => false
  | c :: rest =>
    rest.any (fun d =>
      if c.times = "" || d.times = "" || c.times = "TBA" || d.times = "TBA" then false
      else timesOverlap c.times d.times) || checkTimeConflicts rest

/-! ## Invariants of the validate-and-fix stage -/

/-- `x` is the pick recorded for course `c` (same subject and catalog
number). -/
def matchesCourse (x : ScheduleClass) (c : Course) : Bool :=
  x.subject == c.subject && x.catalogNumber == c.catalogNumber

/-- Number of picks recorded for course `c` in a class list. -/
def pickCnt (cs : List ScheduleClass) (c : Course) : Nat :=
  (cs.filter (fun x => matchesCourse x c)).length

/-- `x` is drawn from the candidate list of one of the input courses: it
carries that course's key and the class number of one of its classes. -/
def fromOwn (courses : List Course) (x : ScheduleClass) : Prop :=
  ∃ c ∈ courses, matchesCourse x c = true ∧
    ∃ cc ∈ c.classes, cc.classNumber = x.classNumber

/-- Well-formed course lists: every course has at least one candidate,
every class carries its course's subject and catalog number, and course
keys are pairwise distinct. -/
def WFCourses (courses : List Course) : Prop :=
  (∀ c ∈ courses, c.classes ≠ []) ∧
  (∀ c ∈ courses, ∀ cl ∈ c.classes,
    cl.subject = c.subject ∧ cl.catalogNumber = c.catalogNumber) ∧
  courses.Pairwise (fun a b => ¬(a.subject = b.subject ∧ a.catalogNumber = b.catalogNumber))

instance (courses : List Course) : Decidable (WFCourses courses) := by
  unfold WFCourses; infer_instance

/-- Invariant of the matched-classes loops: used indices are in range and
distinct, every course indexed by the used set has exactly one pick so far
and the others none, and every pick so far is drawn from its own course. -/
def MState (courses : List Course) (st : List ScheduleClass × List Nat) : Prop :=
  (∀ i ∈ st.2, i < courses.length) ∧
  st.2.Nodup ∧
  (∀ i, i < courses.length →
    pickCnt st.1 (courses.getD i emptyCourse) = if i ∈ st.2 then 1 else 0) ∧
  (∀ x ∈ st.1, fromOwn courses x)

/-! ## Concrete instances -/

/-- A course whose single class meets Mon/Wed/Fri 09:40–10:35. -/
def c1CourseA : Course :=
  ⟨"MATH", "2301", [⟨"MATH", "2301", 101, "", "", [⟨["M", "W", "F"], "09:40", "10:35"⟩]⟩]⟩

/-- A course whose single class meets Mon/Wed/Fri 10:00–11:00, overlapping
`c1CourseA`. -/
def c1CourseB : Course :=
  ⟨"PHYS", "1001", [⟨"PHYS", "1001", 201, "", "", [⟨["M", "W", "F"], "10:00", "11:00"⟩]⟩]⟩

/-- A model response pairing the two overlapping classes in one schedule. -/
def c1Resp : ParsedResponse :=
  .schedules [⟨1, [⟨"MATH", "2301", 101⟩, ⟨"PHYS", "1001", 201⟩]⟩]

/-- Two well-formed single-candidate courses whose only classes overlap
(both Mon 09:00–10:00): a well-formed but infeasible request. -/
def c3Courses : List Course :=
  [⟨"CHEM", "1510", [⟨"CHEM", "1510", 501, "", "", [⟨["M"], "09:00", "10:00"⟩]⟩]⟩,
   ⟨"ENG", "1100", [⟨"ENG", "1100", 601, "", "", [⟨["M"], "09:00", "10:00"⟩]⟩]⟩]

/-- The infeasibility message the prompt instructs the model to return. -/
def c3Msg : String :=
  "Cannot generate schedules without overlapping classes. All possible class combinations result in time conflicts."

/-- A course with zero candidates — invalid input per the spec. -/
def c6Course : Course := ⟨"ECON", "1000", []⟩

/-- A course with six candidate classes at disjoint times. -/
def c7Course : Course :=
  ⟨"COMS", "1030",
    [⟨"COMS", "1030", 1, "", "", [⟨["M", "W", "F"], "08:00", "08:55"⟩]⟩,
     ⟨"COMS", "1030", 2, "", "", [⟨["M", "W", "F"], "09:00", "09:55"⟩]⟩,
     ⟨"COMS", "1030", 3, "", "", [⟨["M", "W", "F"], "10:00", "10:55"⟩]⟩,
     ⟨"COMS", "1030", 4, "", "", [⟨["M", "W", "F"], "11:00", "11:55"⟩]⟩,
     ⟨"COMS", "1030", 5, "", "", [⟨["M", "W", "F"], "12:00", "12:55"⟩]⟩,
     ⟨"COMS", "1030", 6, "", "", [⟨["M", "W", "F"], "13:00", "13:55"⟩]⟩]⟩

/-- A model response containing six distinct conflict-free schedules. -/
def c7Raws : List RawSchedule :=
  [⟨1, [⟨"COMS", "1030", 1⟩]⟩, ⟨2, [⟨"COMS", "1030", 2⟩]⟩, ⟨3, [⟨"COMS", "1030", 3⟩]⟩,
   ⟨4, [⟨"COMS", "1030", 4⟩]⟩, ⟨5, [⟨"COMS", "1030", 5⟩]⟩, ⟨6, [⟨"COMS", "1030", 6⟩]⟩]

/-- A single-candidate course used in the C7 witness. -/
def c7wCourse : Course :=
  ⟨"PSY", "1010", [⟨"PSY", "1010", 701, "", "", [⟨["Tu", "Th"], "08:00", "09:20"⟩]⟩]⟩

/-- A course with two candidates used in the C4 witness. -/
def c4Course : Course :=
  ⟨"HIST", "1330",
    [⟨"HIST", "1330", 301, "", "", [⟨["M"], "09:00", "09:50"⟩]⟩,
     ⟨"HIST", "1330", 302, "", "", [⟨["M"], "10:00", "10:50"⟩]⟩]⟩

/-- A single-candidate course used in the C5 witness. -/
def c5Course : Course :=
  ⟨"BIO", "1010", [⟨"BIO", "1010", 401, "", "", [⟨["M", "W"], "08:00", "08:50"⟩]⟩]⟩

/-- A single-candidate course used in the C8 witness. -/
def c8CourseA : Course :=
  ⟨"ART", "1100", [⟨"ART", "1100", 801, "", "", [⟨["F"], "13:00", "14:00"⟩]⟩]⟩

/-- A two-candidate course used in the C8 witness. -/
def c8CourseB : Course :=
  ⟨"MUS", "1200",
    [⟨"MUS", "1200", 901, "", "", [⟨["Tu"], "09:00", "09:50"⟩]⟩,
     ⟨"MUS", "1200", 902, "", "", [⟨["Th"], "09:00", "09:50"⟩]⟩]⟩

/-! ## Theorems -/

theorem isStart_self (l : List Char) : isStart l l = true := by
  induction l with
  | nil => rfl
  | cons a as ih => simp [isStart, ih]

theorem subList_append_self (pre sub : List Char) (h : sub ≠ []) :
    subList sub (pre ++ sub) = true := by
  induction pre with
  | nil =>
    cases sub with
    | nil => exact absurd rfl h
    | cons b bs => simp [subList, isStart_self]
  | cons c cs ih => simp [subList, ih]

theorem data_append (a b : String) : (a ++ b).data = a.data ++ b.data := rfl

theorem includesAmPm_of_marker (a p : String) (hp : p = "AM" ∨ p = "PM") :
    includesAmPm (a ++ p) = true := by
  rcases hp with hp | hp <;> subst hp <;>
    simp [includesAmPm, containsSub, data_append, subList_append_self]

theorem includesAmPm_buildTime12 (hour24 : Int) (minutes : String) :
    includesAmPm (buildTime12 hour24 minutes) = true := by
  unfold buildTime12
  by_cases h0 : hour24 = 0
  · simp only [h0, if_pos rfl]
    exact includesAmPm_of_marker _ _ (Or.inl rfl)
  by_cases h12 : hour24 = 12
  · simp only [if_neg h0, h12, if_pos rfl]
    exact includesAmPm_of_marker _ _ (Or.inr rfl)
  by_cases hgt : hour24 > 12
  · simp only [if_neg h0, if_neg h12, if_pos hgt]
    exact includesAmPm_of_marker _ _ (Or.inr rfl)
  · simp only [if_neg h0, if_neg h12, if_neg hgt]
    exact includesAmPm_of_marker _ _ (Or.inl rfl)

theorem convert_eq_or_marker (s : String) :
    convertTo12Hour s = s ∨ includesAmPm (convertTo12Hour s) = true := by
  show convertTo12Hour s = s ∨ _
  unfold convertTo12Hour
  split
  · exact Or.inl rfl
  split
  · exact Or.inl rfl
  split
  · split
    · exact Or.inl rfl
    split
    · exact Or.inl rfl
    split
    · exact Or.inl rfl
    · exact Or.inr (includesAmPm_buildTime12 _ _)
  · exact Or.inl rfl

theorem convert_of_marker (t : String) (h : includesAmPm t = true) :
    convertTo12Hour t = t := by
  by_cases h1 : t = ""
  · simp [convertTo12Hour, h1]
  · simp [convertTo12Hour, h1, h]

/-- C9: the 24-hour-to-12-hour time converter is idempotent: for every
string `s`, `convertTo12Hour (convertTo12Hour s) = convertTo12Hour s`,
because converted output carries an AM/PM marker, a string that already
carries such a marker is returned unchanged, and unparseable inputs are
returned as-is. -/
theorem c9_convertTo12Hour_idempotent (s : String) :
    convertTo12Hour (convertTo12Hour s) = convertTo12Hour s := by
  rcases convert_eq_or_marker s with h | h
  · rw [h]; exact h
  · exact convert_of_marker _ h

/-- C10: the string-level overlap test `timesOverlap` is total (it always
evaluates to one of the two booleans) and conservative: it returns `false`
whenever either input is empty or `TBA`, either input lacks a parseable
day prefix, or either time range cannot be parsed. -/
theorem c10_timesOverlap_total_conservative (time1 time2 : String) :
    (timesOverlap time1 time2 = true ∨ timesOverlap time1 time2 = false) ∧
    (time1 = "" ∨ time2 = "" ∨ time1 = "TBA" ∨ time2 = "TBA" ∨
      extractDays time1 = "" ∨ extractDays time2 = "" ∨
      extractTimeRange time1 = none ∨ extractTimeRange time2 = none →
      timesOverlap time1 time2 = false) := by
  constructor
  · exact Bool.eq_false_or_eq_true _
  intro h
  rcases h with h | h | h | h | h | h | h | h <;>
    simp [timesOverlap, h]

/-- Witness for C10 at a concrete input: a `TBA` meeting string is never
reported as a conflict. -/
theorem c10_witness :
    timesOverlap "TBA" "M 09:00-10:00" = false :=
  (c10_timesOverlap_total_conservative "TBA" "M 09:00-10:00").2
    (Or.inr (Or.inr (Or.inl rfl)))

theorem isDig_digitChar (n : Nat) : isDig (digitChar n) = true := by
  unfold digitChar
  split_ifs <;> decide

theorem digitChar_ne_colon (n : Nat) : (digitChar n = ':') = False := by
  unfold digitChar
  split_ifs <;> simp

theorem dv_digitChar (n : Nat) (h : n < 10) : dv (digitChar n) = n := by
  interval_cases n <;> decide

theorem dayChars_ne_nil (d : Weekday) : dayChars d ≠ [] := by
  cases d <;> simp [dayChars]

theorem daysChars_eq_nil (ds : List Weekday) : daysChars ds = [] ↔ ds = [] := by
  cases ds with
  | nil => simp [daysChars]
  | cons d r =>
    simp only [daysChars]
    constructor
    · intro h
      rcases List.append_eq_nil.mp h with ⟨h1, _⟩
      exact absurd h1 (dayChars_ne_nil d)
    · intro h; exact absurd h (by simp)

theorem dayTokens_daysChars (ds : List Weekday) (t : List Char) :
    dayTokens (daysChars ds ++ ' ' :: t) = (daysChars ds, ' ' :: t) := by
  induction ds with
  | nil => rfl
  | cons d r ih =>
    cases d <;> simp [daysChars, dayChars, dayTokens, ih]

theorem extractDays_render (b : TimeBlock) (hd : b.days ≠ []) :
    extractDays (renderBlock b) = String.mk (daysChars b.days) := by
  have hn : daysChars b.days ≠ [] := fun h => hd ((daysChars_eq_nil _).mp h)
  unfold extractDays renderBlock
  show (let p := dayTokens (blockChars b); _) = _
  unfold blockChars
  rw [dayTokens_daysChars]
  simp [List.isEmpty_iff, hn, isJsSpace]

theorem stripDays_blockChars (b : TimeBlock) (hd : b.days ≠ []) :
    stripDays (blockChars b) = timeChars b.start ++ '-' :: timeChars b.stop := by
  have hn : daysChars b.days ≠ [] := fun h => hd ((daysChars_eq_nil _).mp h)
  unfold stripDays blockChars
  rw [dayTokens_daysChars]
  simp [List.isEmpty_iff, hn, isJsSpace]

example : timesOverlap "M 09:00-09:30" "M 09:30-10:00" = false := by decide

example : timesOverlap "M 09:00-09:31" "M 09:30-10:00" = true := by decide

example : timesOverlap "M 09:00-10:00" "Tu 09:00-10:00" = false := by decide

example : timesOverlap "TuTh 09:30-10:50" "Tu 09:30-10:50" = true := by decide

example : convertTo12Hour "09:40" = "9:40 AM" := by decide

example : convertTo12Hour "14:00" = "2:00 PM" := by decide

example : convertTo12Hour "00:15" = "12:15 AM" := by decide

example : convertTo12Hour "12:05" = "12:05 PM" := by decide

example : convertTo12Hour "9:40 AM" = "9:40 AM" := by decide

example : convertTo12Hour "TBA" = "TBA" := by decide

theorem readHour_timeChars (t : Nat) (h : t < 1440) (r : List Char) :
    readHour (timeChars t ++ r) =
      some (t / 60, digitChar (t % 60 / 10) :: digitChar (t % 60 % 10) :: r) := by
  have h1 : t / 60 / 10 < 10 := by omega
  have h2 : t / 60 % 10 < 10 := by omega
  unfold timeChars readHour
  simp [isDig_digitChar, digitChar_ne_colon, dv_digitChar _ h1, dv_digitChar _ h2]
  omega

theorem readMin_pair (a b : Nat) (ha : a < 10) (hb : b < 10) (r : List Char) :
    readMin (digitChar a :: digitChar b :: r) = some (10 * a + b, r) := by
  unfold readMin
  simp [isDig_digitChar, dv_digitChar _ ha, dv_digitChar _ hb]

theorem matchTimeAt_render (s e : Nat) (hs : s < 1440) (he : e < 1440) :
    matchTimeAt (timeChars s ++ '-' :: timeChars e) = some (s, e) := by
  have h1 := readHour_timeChars s hs ('-' :: timeChars e)
  have h2 := readMin_pair (s % 60 / 10) (s % 60 % 10) (by omega) (by omega)
    ('-' :: timeChars e)
  have h3 : readHour (timeChars e) =
      some (e / 60, digitChar (e % 60 / 10) :: digitChar (e % 60 % 10) :: []) := by
    have h := readHour_timeChars e he []
    simpa using h
  have h4 := readMin_pair (e % 60 / 10) (e % 60 % 10) (by omega) (by omega)
    ([] : List Char)
  unfold matchTimeAt
  rw [h1]
  simp only [h2, h3, h4, Option.some.injEq, Prod.mk.injEq]
  omega

theorem searchTime_cons_of_match (a : Char) (rest : List Char) (v : Nat × Nat)
    (h : matchTimeAt (a :: rest) = some v) : searchTime (a :: rest) = some v := by
  unfold searchTime
  rw [h]

theorem extractTimeRange_render (b : TimeBlock) (hv : ValidBlock b) :
    extractTimeRange (renderBlock b) = some (b.start, b.stop) := by
  obtain ⟨hd, hs, he⟩ := hv
  unfold extractTimeRange renderBlock
  show (let p := stripDays (blockChars b); _) = _
  rw [stripDays_blockChars b hd]
  have hm := matchTimeAt_render b.start b.stop hs he
  have hcons : timeChars b.start ++ '-' :: timeChars b.stop =
      digitChar (b.start / 60 / 10) :: (digitChar (b.start / 60 % 10) :: ':' ::
        digitChar (b.start % 60 / 10) :: digitChar (b.start % 60 % 10) ::
        '-' :: timeChars b.stop) := by
    simp [timeChars]
  rw [hcons] at hm
  rw [hcons]
  simp only [searchTime_cons_of_match _ _ _ hm]

theorem normalizeDays_daysChars (ds : List Weekday) :
    normalizeDays (daysChars ds) = ds.map dayCode := by
  induction ds with
  | nil => rfl
  | cons d r ih => cases d <;> simp [daysChars, dayChars, normalizeDays, ih, dayCode]

theorem dayCode_beq (d a : Weekday) : (dayCode d == dayCode a) = (d == a) := by
  cases d <;> cases a <;> decide

theorem contains_map_dayCode (l : List Weekday) (d : Weekday) :
    (l.map dayCode).contains (dayCode d) = l.contains d := by
  induction l with
  | nil => rfl
  | cons a r ih =>
    simp only [List.map_cons, List.contains_cons, ih, dayCode_beq]

theorem any_contains_map (l1 l2 : List Weekday) :
    ((l1.map dayCode).any fun x => (l2.map dayCode).contains x) =
      l1.any fun d => l2.contains d := by
  induction l1 with
  | nil => rfl
  | cons a r ih =>
    simp only [List.map_cons, List.any_cons, ih, contains_map_dayCode]

theorem blockChars_length (b : TimeBlock) :
    (blockChars b).length = (daysChars b.days).length + 12 := by
  simp [blockChars, timeChars]

theorem renderBlock_ne_empty (b : TimeBlock) (hd : b.days ≠ []) :
    decide (renderBlock b = "") = false := by
  have hn : daysChars b.days ≠ [] := fun h => hd ((daysChars_eq_nil _).mp h)
  apply decide_eq_false
  intro hcontra
  have h0 : (blockChars b).length = 0 := by
    have hdata : blockChars b = ("" : String).data := congrArg String.data hcontra
    simp [hdata]
  rw [blockChars_length] at h0
  omega

theorem renderBlock_ne_tba (b : TimeBlock) (hd : b.days ≠ []) :
    decide (renderBlock b = "TBA") = false := by
  have hn : daysChars b.days ≠ [] := fun h => hd ((daysChars_eq_nil _).mp h)
  have hlen : 1 ≤ (daysChars b.days).length := by
    cases hx : daysChars b.days with
    | nil => exact absurd hx hn
    | cons c r => simp
  apply decide_eq_false
  intro hcontra
  have h0 : (blockChars b).length = ("TBA" : String).data.length :=
    congrArg (fun s => s.data.length) hcontra
  rw [blockChars_length] at h0
  simp at h0

/-- C2: `timesOverlap` on rendered time blocks agrees exactly with the
predicate stated by the spec: true iff the day sets intersect AND the
half-open intervals intersect under strict inequalities
(`a.start < b.end` and `b.start < a.end`); touching blocks do not conflict
and blocks on disjoint day sets never conflict regardless of their times. -/
theorem c2_timesOverlap_matches_spec (a b : TimeBlock)
    (ha : ValidBlock a) (hb : ValidBlock b) :
    timesOverlap (renderBlock a) (renderBlock b) = blocksConflictSpec a b := by
  obtain ⟨hda, hsa, hea⟩ := ha
  obtain ⟨hdb, hsb, heb⟩ := hb
  have hea2 : extractDays (renderBlock a) = String.mk (daysChars a.days) :=
    extractDays_render a hda
  have heb2 : extractDays (renderBlock b) = String.mk (daysChars b.days) :=
    extractDays_render b hdb
  have hna : daysChars a.days ≠ [] := fun h => hda ((daysChars_eq_nil _).mp h)
  have hnb : daysChars b.days ≠ [] := fun h => hdb ((daysChars_eq_nil _).mp h)
  have hra := extractTimeRange_render a ⟨hda, hsa, hea⟩
  have hrb := extractTimeRange_render b ⟨hdb, hsb, heb⟩
  have hmk : ∀ l : List Char, l ≠ [] → decide (String.mk l = "") = false := by
    intro l hl
    apply decide_eq_false
    intro hc
    exact hl (by simpa using congrArg String.data hc)
  have hnorm : ∀ l : List Weekday,
      normalizeDays (String.mk (daysChars l)).data = l.map dayCode := by
    intro l
    show normalizeDays (daysChars l) = l.map dayCode
    exact normalizeDays_daysChars l
  unfold timesOverlap
  simp only [renderBlock_ne_empty a hda, renderBlock_ne_empty b hdb,
    renderBlock_ne_tba a hda, renderBlock_ne_tba b hdb, hea2, heb2,
    hmk _ hna, hmk _ hnb, hnorm, any_contains_map, hra, hrb,
    Bool.or_self, Bool.or_false, Bool.false_or, Bool.false_eq_true,
    if_false, ite_false, if_true, ite_true]
  by_cases hov : (a.days.any fun d => b.days.contains d) = true
  · simp only [hov, blocksConflictSpec, Bool.true_and, Bool.not_true,
      Bool.false_eq_true, if_false, ite_false]
  · have hov2 : (a.days.any fun d => b.days.contains d) = false :=
      Bool.eq_false_iff.mpr hov
    simp only [hov2, blocksConflictSpec, Bool.false_and, Bool.not_false,
      if_true, ite_true]

/-- Witness for C2: the boundary case of property P5 — `Mon 09:00–09:30`
against `Mon 09:30–10:00` touches but does not conflict. -/
theorem c2_witness :
    ValidBlock ⟨[.mon], 540, 570⟩ ∧ ValidBlock ⟨[.mon], 570, 600⟩ ∧
      timesOverlap (renderBlock ⟨[.mon], 540, 570⟩) (renderBlock ⟨[.mon], 570, 600⟩) = false :=
  ⟨by decide, by decide,
    (c2_timesOverlap_matches_spec ⟨[.mon], 540, 570⟩ ⟨[.mon], 570, 600⟩
      (by decide) (by decide)).trans (by decide)⟩

theorem findIndex_spec {α : Type} (p : α → Bool) (d : α) :
    ∀ (l : List α) (i : Nat), findIndex p l = some i →
      i < l.length ∧ l.find? p = some (l.getD i d) := by
  intro l
  induction l with
  | nil => intro i h; simp [findIndex] at h
  | cons a as ih =>
    intro i h
    by_cases hp : p a = true
    · simp [findIndex, hp] at h
      subst h
      simp [List.find?, hp]
    · have hp2 : p a = false := Bool.eq_false_iff.mpr hp
      simp [findIndex, hp2] at h
      obtain ⟨j, hj, hji⟩ := h
      obtain ⟨hlt, hfind⟩ := ih j hj
      subst hji
      constructor
      · simpa using Nat.succ_lt_succ hlt
      · simpa [List.find?, hp2] using hfind

theorem find?_of_mem_distinct (courses : List Course) (c : Course)
    (hdis : courses.Pairwise
      (fun a b => ¬(a.subject = b.subject ∧ a.catalogNumber = b.catalogNumber)))
    (hc : c ∈ courses) (p : Course → Bool)
    (hp : ∀ a, p a = true ↔ (a.subject = c.subject ∧ a.catalogNumber = c.catalogNumber)) :
    courses.find? p = some c := by
  induction courses with
  | nil => simp at hc
  | cons a as ih =>
    rcases List.mem_cons.mp hc with rfl | hmem
    · have hpa : p c = true := (hp c).mpr ⟨rfl, rfl⟩
      simp [List.find?, hpa]
    · have hpa : p a = false := by
        rw [Bool.eq_false_iff]
        intro hpa
        have hkeys := (hp a).mp hpa
        exact (List.rel_of_pairwise_cons hdis hmem) hkeys
      simp only [List.find?, hpa]
      exact ih (List.Pairwise.of_cons hdis) hmem

theorem match_same_course (courses : List Course)
    (hdis : courses.Pairwise
      (fun a b => ¬(a.subject = b.subject ∧ a.catalogNumber = b.catalogNumber)))
    (c c2 : Course) (hc : c ∈ courses) (hc2 : c2 ∈ courses) (x : ScheduleClass)
    (h1 : matchesCourse x c = true) (h2 : matchesCourse x c2 = true) : c = c2 := by
  by_contra hne
  have hsym : Symmetric
      (fun a b : Course => ¬(a.subject = b.subject ∧ a.catalogNumber = b.catalogNumber)) := by
    intro a b hab hba
    exact hab ⟨hba.1.symm, hba.2.symm⟩
  have hr := List.Pairwise.forall hsym hdis hc hc2 hne
  unfold matchesCourse at h1 h2
  simp only [Bool.and_eq_true, beq_iff_eq] at h1 h2
  exact hr ⟨h1.1.symm.trans h2.1, h1.2.symm.trans h2.2⟩

theorem getD_mem_of_lt (courses : List Course) (i : Nat) (h : i < courses.length) :
    courses.getD i emptyCourse ∈ courses := by
  rw [List.getD_eq_getElem courses emptyCourse h]
  exact List.getElem_mem h

theorem buildActual_subject (ac : CourseClass) : (buildActual ac).subject = ac.subject := rfl

theorem buildActual_catalog (ac : CourseClass) :
    (buildActual ac).catalogNumber = ac.catalogNumber := rfl

theorem buildActual_classNumber (ac : CourseClass) :
    (buildActual ac).classNumber = ac.classNumber := rfl

theorem buildFallback_subject (fb : CourseClass) : (buildFallback fb).subject = fb.subject := rfl

theorem buildFallback_catalog (fb : CourseClass) :
    (buildFallback fb).catalogNumber = fb.catalogNumber := rfl

theorem buildFallback_classNumber (fb : CourseClass) :
    (buildFallback fb).classNumber = fb.classNumber := rfl

theorem mapToFullClassData_some_spec (courses : List Course) (cls : RawClass)
    (f : ScheduleClass)
    (hwf2 : ∀ c ∈ courses, ∀ cl ∈ c.classes,
      cl.subject = c.subject ∧ cl.catalogNumber = c.catalogNumber)
    (h : mapToFullClassData courses cls = some f) :
    ∃ course, course ∈ courses ∧ courses.find? (courseMatch cls) = some course ∧
      matchesCourse f course = true ∧ ∃ cc ∈ course.classes, cc.classNumber = f.classNumber := by
  unfold mapToFullClassData at h
  split at h
  · simp at h
  next course hfind =>
    have hmem := List.mem_of_find?_eq_some hfind
    refine ⟨course, hmem, hfind, ?_⟩
    split at h
    next actual hcl =>
      have hacm := List.mem_of_find?_eq_some hcl
      have hf : f = buildActual actual := by
        injection h with h2; exact h2.symm
      obtain ⟨hs, hcat⟩ := hwf2 course hmem actual hacm
      subst hf
      constructor
      · unfold matchesCourse
        simp [buildActual_subject, buildActual_catalog, hs, hcat]
      · exact ⟨actual, hacm, (buildActual_classNumber actual).symm⟩
    next hcl =>
      split at h
      · simp at h
      next fb rest hcc =>
        have hf : f = buildFallback fb := by
          injection h with h2; exact h2.symm
        have hfbm : fb ∈ course.classes := by rw [hcc]; exact List.mem_cons_self fb rest
        obtain ⟨hs, hcat⟩ := hwf2 course hmem fb hfbm
        subst hf
        constructor
        · unfold matchesCourse
          simp [buildFallback_subject, buildFallback_catalog, hs, hcat]
        · exact ⟨fb, hfbm, (buildFallback_classNumber fb).symm⟩

theorem mapToFullClassData_first (courses : List Course) (c : Course)
    (fc : CourseClass) (rest : List CourseClass)
    (hwf2 : ∀ c2 ∈ courses, ∀ cl ∈ c2.classes,
      cl.subject = c2.subject ∧ cl.catalogNumber = c2.catalogNumber)
    (hdis : courses.Pairwise
      (fun a b => ¬(a.subject = b.subject ∧ a.catalogNumber = b.catalogNumber)))
    (hc : c ∈ courses) (hcc : c.classes = fc :: rest) :
    mapToFullClassData courses ⟨fc.subject, fc.catalogNumber, fc.classNumber⟩ =
      some (buildActual fc) := by
  have hfc : fc ∈ c.classes := by rw [hcc]; exact List.mem_cons_self fc rest
  obtain ⟨hs, hcat⟩ := hwf2 c hc fc hfc
  have hfind : courses.find? (courseMatch ⟨fc.subject, fc.catalogNumber, fc.classNumber⟩) =
      some c := by
    apply find?_of_mem_distinct courses c hdis hc
    intro a
    unfold courseMatch
    simp [hs, hcat]
  have hfindc : List.find? (fun c2 => c2.classNumber == fc.classNumber) (fc :: rest) =
      some fc := List.find?_cons_of_pos _ (by simp)
  unfold mapToFullClassData
  rw [hfind]
  simp only [hcc, hfindc]

theorem contains_iff_mem_nat (l : List Nat) (n : Nat) : l.contains n = true ↔ n ∈ l := by
  simp

theorem pickCnt_append (cs : List ScheduleClass) (f : ScheduleClass) (c : Course) :
    pickCnt (cs ++ [f]) c = pickCnt cs c + (if matchesCourse f c = true then 1 else 0) := by
  unfold pickCnt
  rw [List.filter_append, List.length_append]
  by_cases h : matchesCourse f c = true <;> simp [h]

theorem matchesCourse_unique_idx (courses : List Course)
    (hdis : courses.Pairwise
      (fun a b => ¬(a.subject = b.subject ∧ a.catalogNumber = b.catalogNumber)))
    (i j : Nat) (hi : i < courses.length) (hj : j < courses.length) (x : ScheduleClass)
    (h1 : matchesCourse x (courses.getD i emptyCourse) = true)
    (h2 : matchesCourse x (courses.getD j emptyCourse) = true) : i = j := by
  by_contra hne
  unfold matchesCourse at h1 h2
  simp only [Bool.and_eq_true, beq_iff_eq] at h1 h2
  rw [List.getD_eq_getElem courses emptyCourse hi] at h1
  rw [List.getD_eq_getElem courses emptyCourse hj] at h2
  rcases Nat.lt_or_ge i j with h | h
  · exact (List.pairwise_iff_getElem.mp hdis) i j hi hj h
      ⟨h1.1.symm.trans h2.1, h1.2.symm.trans h2.2⟩
  · have hlt : j < i := by omega
    exact (List.pairwise_iff_getElem.mp hdis) j i hj hi hlt
      ⟨h2.1.symm.trans h1.1, h2.2.symm.trans h1.2⟩

theorem MState_nil (courses : List Course) : MState courses ([], []) := by
  refine ⟨by simp, List.nodup_nil, ?_, by simp⟩
  intro i _
  simp [pickCnt]

theorem MState_push (courses : List Course)
    (hdis : courses.Pairwise
      (fun a b => ¬(a.subject = b.subject ∧ a.catalogNumber = b.catalogNumber)))
    (acc : List ScheduleClass × List Nat) (ci : Nat) (f : ScheduleClass)
    (hcilt : ci < courses.length)
    (hused : ¬ ci ∈ acc.2)
    (hmatch : matchesCourse f (courses.getD ci emptyCourse) = true)
    (hfrom : fromOwn courses f)
    (h : MState courses acc) :
    MState courses (acc.1 ++ [f], ci :: acc.2) := by
  obtain ⟨hbound, hnodup, hcnt, hown⟩ := h
  refine ⟨?_, ?_, ?_, ?_⟩
  · intro i hi
    rcases List.mem_cons.mp hi with rfl | hi2
    · exact hcilt
    · exact hbound i hi2
  · exact List.nodup_cons.mpr ⟨hused, hnodup⟩
  · intro j hj
    show pickCnt (acc.1 ++ [f]) _ = _
    rw [pickCnt_append, hcnt j hj]
    by_cases hji : j = ci
    · subst hji
      rw [if_neg hused, if_pos hmatch, if_pos (List.mem_cons_self j acc.2)]
    · have hm : matchesCourse f (courses.getD j emptyCourse) = false := by
        rw [Bool.eq_false_iff]
        intro hmm
        exact hji (matchesCourse_unique_idx courses hdis j ci hj hcilt f hmm hmatch)
      have hjm : (j ∈ ci :: acc.2) ↔ j ∈ acc.2 := by
        simp [List.mem_cons, hji]
      rw [hm]
      simp only [Bool.false_eq_true, if_false, add_zero, if_congr hjm rfl rfl]
  · intro x hx
    rcases List.mem_append.mp hx with hx | hx
    · exact hown x hx
    · have hxf : x = f := by simpa using hx
      subst hxf
      exact hfrom

theorem stepB_MState (courses : List Course) (hwf : WFCourses courses)
    (acc : List ScheduleClass × List Nat) (cls : RawClass)
    (h : MState courses acc) : MState courses (stepB courses acc cls) := by
  obtain ⟨hwf1, hwf2, hdis⟩ := hwf
  unfold stepB
  split
  · exact h
  next ci hci =>
    split
    · exact h
    next hused =>
      split
      next f hf =>
        obtain ⟨hcilt, hfind⟩ := findIndex_spec (courseMatch cls) emptyCourse courses ci hci
        obtain ⟨course, hcm, hfind2, hmatch, cc, hccm, hccn⟩ :=
          mapToFullClassData_some_spec courses cls f hwf2 hf
        have hcourse : courses.getD ci emptyCourse = course := by
          rw [hfind] at hfind2
          injection hfind2
        apply MState_push courses hdis acc ci f hcilt
          (fun hmem => hused ((contains_iff_mem_nat acc.2 ci).mpr hmem))
          (hcourse ▸ hmatch) ⟨course, hcm, hmatch, cc, hccm, hccn⟩ h
      next => exact h

theorem stepA_MState (courses : List Course) (hwf : WFCourses courses)
    (acc : List ScheduleClass × List Nat) (cls : RawClass)
    (h : MState courses acc) : MState courses (stepA courses acc cls) := by
  obtain ⟨hwf1, hwf2, hdis⟩ := hwf
  unfold stepA
  split
  · exact h
  next ci hci =>
    split
    · exact h
    next hused =>
      split
      · exact h
      next _ _ =>
        split
        next f hf =>
          obtain ⟨hcilt, hfind⟩ := findIndex_spec (courseMatch cls) emptyCourse courses ci hci
          obtain ⟨course, hcm, hfind2, hmatch, cc, hccm, hccn⟩ :=
            mapToFullClassData_some_spec courses cls f hwf2 hf
          have hcourse : courses.getD ci emptyCourse = course := by
            rw [hfind] at hfind2
            injection hfind2
          apply MState_push courses hdis acc ci f hcilt
            (fun hmem => hused ((contains_iff_mem_nat acc.2 ci).mpr hmem))
            (hcourse ▸ hmatch) ⟨course, hcm, hmatch, cc, hccm, hccn⟩ h
        next => exact h

theorem matchedA_MState (courses : List Course) (hwf : WFCourses courses)
    (classes : List RawClass) : MState courses (matchedA courses classes) := by
  unfold matchedA
  have hgen : ∀ (l : List RawClass) (acc : List ScheduleClass × List Nat),
      MState courses acc → MState courses (l.foldl (stepA courses) acc) := by
    intro l
    induction l with
    | nil => intro acc h; exact h
    | cons a t ih => intro acc h; exact ih _ (stepA_MState courses hwf acc a h)
  exact hgen classes ([], []) (MState_nil courses)

theorem matchedB_MState (courses : List Course) (hwf : WFCourses courses)
    (classes : List RawClass) : MState courses (matchedB courses classes) := by
  unfold matchedB
  have hgen : ∀ (l : List RawClass) (acc : List ScheduleClass × List Nat),
      MState courses acc → MState courses (l.foldl (stepB courses) acc) := by
    intro l
    induction l with
    | nil => intro acc h; exact h
    | cons a t ih => intro acc h; exact ih _ (stepB_MState courses hwf acc a h)
  exact hgen classes ([], [])  (MState_nil courses)

theorem stepMissA_skip (courses : List Course) (acc : List ScheduleClass × List Nat)
    (i : Nat) (hcont : acc.2.contains i = true) :
    stepMissA courses acc i = acc := by
  simp only [stepMissA, hcont, Bool.not_true, Bool.false_and, Bool.false_eq_true, if_false,
    ite_false]

theorem stepMissA_push (courses : List Course) (acc : List ScheduleClass × List Nat)
    (i : Nat) (fc : CourseClass) (rest : List CourseClass)
    (hcont : acc.2.contains i = false)
    (hcc : (courses.getD i emptyCourse).classes = fc :: rest)
    (hmap : mapToFullClassData courses ⟨fc.subject, fc.catalogNumber, fc.classNumber⟩ =
      some (buildActual fc)) :
    stepMissA courses acc i = (acc.1 ++ [buildActual fc], i :: acc.2) := by
  simp only [stepMissA, hcont, hcc, hmap, List.isEmpty_cons, Bool.not_false, Bool.and_self,
    if_true, ite_true]

theorem stepMissA_spec (courses : List Course) (hwf : WFCourses courses)
    (acc : List ScheduleClass × List Nat) (i : Nat) (hi : i < courses.length)
    (h : MState courses acc) :
    MState courses (stepMissA courses acc i) ∧
      i ∈ (stepMissA courses acc i).2 ∧
      ∀ k ∈ acc.2, k ∈ (stepMissA courses acc i).2 := by
  obtain ⟨hwf1, hwf2, hdis⟩ := hwf
  have hcmem : courses.getD i emptyCourse ∈ courses := getD_mem_of_lt courses i hi
  have hne : (courses.getD i emptyCourse).classes ≠ [] := hwf1 _ hcmem
  by_cases hcont : acc.2.contains i = true
  · rw [stepMissA_skip courses acc i hcont]
    exact ⟨h, (contains_iff_mem_nat acc.2 i).mp hcont, fun k hk => hk⟩
  · have hcont2 : acc.2.contains i = false := Bool.eq_false_iff.mpr hcont
    cases hcc : (courses.getD i emptyCourse).classes with
    | nil => exact absurd hcc hne
    | cons fc rest =>
      have hmap := mapToFullClassData_first courses (courses.getD i emptyCourse) fc rest
        hwf2 hdis hcmem hcc
      rw [stepMissA_push courses acc i fc rest hcont2 hcc hmap]
      have hfcm : fc ∈ (courses.getD i emptyCourse).classes := by
        rw [hcc]; exact List.mem_cons_self fc rest
      obtain ⟨hs, hcat⟩ := hwf2 _ hcmem fc hfcm
      have hmatch : matchesCourse (buildActual fc) (courses.getD i emptyCourse) = true := by
        unfold matchesCourse
        simp [buildActual_subject, buildActual_catalog, hs, hcat]
      refine ⟨?_, List.mem_cons_self i acc.2, fun k hk => List.mem_cons_of_mem i hk⟩
      apply MState_push courses hdis acc i (buildActual fc) hi
        (fun hmem => hcont ((contains_iff_mem_nat acc.2 i).mpr hmem)) hmatch
        ⟨courses.getD i emptyCourse, hcmem, hmatch, fc, hfcm,
          (buildActual_classNumber fc).symm⟩ h

theorem fixMissingA_fold (courses : List Course) (hwf : WFCourses courses) :
    ∀ (is : List Nat) (acc : List ScheduleClass × List Nat),
      (∀ i ∈ is, i < courses.length) → MState courses acc →
      MState courses (is.foldl (stepMissA courses) acc) ∧
        (∀ i ∈ is, i ∈ (is.foldl (stepMissA courses) acc).2) ∧
        (∀ k ∈ acc.2, k ∈ (is.foldl (stepMissA courses) acc).2) := by
  intro is
  induction is with
  | nil => intro acc _ h; exact ⟨h, by simp, fun k hk => hk⟩
  | cons i t ih =>
    intro acc hbnd h
    have hi : i < courses.length := hbnd i (List.mem_cons_self i t)
    obtain ⟨h1, h2, h3⟩ := stepMissA_spec courses hwf acc i hi h
    obtain ⟨ih1, ih2, ih3⟩ := ih (stepMissA courses acc i)
      (fun j hj => hbnd j (List.mem_cons_of_mem i hj)) h1
    refine ⟨ih1, ?_, fun k hk => ih3 k (h3 k hk)⟩
    intro j hj
    rcases List.mem_cons.mp hj with rfl | hj2
    · exact ih3 j h2
    · exact ih2 j hj2

theorem fixA_spec (courses : List Course) (hwf : WFCourses courses)
    (classes : List RawClass) :
    (∀ j, j < courses.length →
      pickCnt (fixA courses classes) (courses.getD j emptyCourse) = 1) ∧
    (∀ x ∈ fixA courses classes, fromOwn courses x) := by
  have hm := matchedA_MState courses hwf classes
  obtain ⟨hfold, hall, _⟩ := fixMissingA_fold courses hwf (List.range courses.length)
    (matchedA courses classes) (fun i hi => List.mem_range.mp hi) hm
  obtain ⟨_, _, hcnt, hown⟩ := hfold
  constructor
  · intro j hj
    have hjmem := hall j (List.mem_range.mpr hj)
    have h2 := hcnt j hj
    rw [if_pos hjmem] at h2
    unfold fixA fixMissingA
    exact h2
  · intro x hx
    unfold fixA fixMissingA at hx
    exact hown x hx

theorem buildActual_matches (courses : List Course)
    (hwf2 : ∀ c ∈ courses, ∀ cl ∈ c.classes,
      cl.subject = c.subject ∧ cl.catalogNumber = c.catalogNumber)
    (i : Nat) (hi : i < courses.length) (fc : CourseClass) (rest : List CourseClass)
    (hcc : (courses.getD i emptyCourse).classes = fc :: rest) :
    matchesCourse (buildActual fc) (courses.getD i emptyCourse) = true := by
  have hcmem : courses.getD i emptyCourse ∈ courses := getD_mem_of_lt courses i hi
  have hfcm : fc ∈ (courses.getD i emptyCourse).classes := by
    rw [hcc]; exact List.mem_cons_self fc rest
  obtain ⟨hs, hcat⟩ := hwf2 _ hcmem fc hfcm
  unfold matchesCourse
  simp [buildActual_subject, buildActual_catalog, hs, hcat]

theorem stepMissB_skip (courses : List Course) (used : List Nat)
    (fx : List ScheduleClass) (i : Nat) (hcont : used.contains i = true) :
    stepMissB courses used fx i = fx := by
  simp only [stepMissB, hcont, Bool.not_true, Bool.false_and, Bool.false_eq_true, if_false,
    ite_false]

theorem stepMissB_push (courses : List Course) (used : List Nat)
    (fx : List ScheduleClass) (i : Nat) (fc : CourseClass) (rest : List CourseClass)
    (hcont : used.contains i = false)
    (hcc : (courses.getD i emptyCourse).classes = fc :: rest)
    (hmap : mapToFullClassData courses ⟨fc.subject, fc.catalogNumber, fc.classNumber⟩ =
      some (buildActual fc)) :
    stepMissB courses used fx i = fx ++ [buildActual fc] := by
  simp only [stepMissB, hcont, hcc, hmap, List.isEmpty_cons, Bool.not_false, Bool.and_self,
    if_true, ite_true]

theorem fixMissingB_fold (courses : List Course) (hwf : WFCourses courses)
    (used : List Nat) :
    ∀ (is : List Nat) (fx : List ScheduleClass),
      (∀ i ∈ is, i < courses.length) → is.Nodup →
      (∀ x ∈ fx, fromOwn courses x) →
      (∀ x ∈ is.foldl (stepMissB courses used) fx, fromOwn courses x) ∧
      (∀ j, j < courses.length →
        pickCnt (is.foldl (stepMissB courses used) fx) (courses.getD j emptyCourse) =
          pickCnt fx (courses.getD j emptyCourse) +
            (if j ∈ is ∧ ¬ j ∈ used then 1 else 0)) := by
  intro is
  induction is with
  | nil =>
    intro fx _ _ hown
    refine ⟨hown, ?_⟩
    intro j _
    simp
  | cons i t ih =>
    intro fx hbnd hnd hown
    have hi : i < courses.length := hbnd i (List.mem_cons_self i t)
    obtain ⟨hint, hndt⟩ := List.nodup_cons.mp hnd
    by_cases hu : used.contains i = true
    · rw [List.foldl_cons, stepMissB_skip courses used fx i hu]
      obtain ⟨ihown, ihcnt⟩ := ih fx (fun j hj => hbnd j (List.mem_cons_of_mem i hj)) hndt hown
      refine ⟨ihown, ?_⟩
      intro j hj
      rw [ihcnt j hj]
      congr 1
      by_cases hji : j = i
      · subst hji
        have hjm : j ∈ used := (contains_iff_mem_nat used j).mp hu
        rw [if_neg (fun h => h.2 hjm), if_neg (fun h => h.2 hjm)]
      · have : (j ∈ t ∧ ¬ j ∈ used) ↔ (j ∈ i :: t ∧ ¬ j ∈ used) := by
          constructor
          · exact fun ⟨h1, h2⟩ => ⟨List.mem_cons_of_mem i h1, h2⟩
          · rintro ⟨h1, h2⟩
            rcases List.mem_cons.mp h1 with rfl | h3
            · exact absurd rfl hji
            · exact ⟨h3, h2⟩
        rw [if_congr this rfl rfl]
    · have hu2 : used.contains i = false := Bool.eq_false_iff.mpr hu
      have hcmem : courses.getD i emptyCourse ∈ courses := getD_mem_of_lt courses i hi
      have hne : (courses.getD i emptyCourse).classes ≠ [] := hwf.1 _ hcmem
      cases hcc : (courses.getD i emptyCourse).classes with
      | nil => exact absurd hcc hne
      | cons fc rest =>
        have hmap := mapToFullClassData_first courses (courses.getD i emptyCourse) fc rest
          hwf.2.1 hwf.2.2 hcmem hcc
        have hmatch := buildActual_matches courses hwf.2.1 i hi fc rest hcc
        have hfcm : fc ∈ (courses.getD i emptyCourse).classes := by
          rw [hcc]; exact List.mem_cons_self fc rest
        rw [List.foldl_cons, stepMissB_push courses used fx i fc rest hu2 hcc hmap]
        have hownx : ∀ x ∈ fx ++ [buildActual fc], fromOwn courses x := by
          intro x hx
          rcases List.mem_append.mp hx with hx | hx
          · exact hown x hx
          · have hxf : x = buildActual fc := by simpa using hx
            subst hxf
            exact ⟨courses.getD i emptyCourse, hcmem, hmatch, fc, hfcm,
              (buildActual_classNumber fc).symm⟩
        obtain ⟨ihown, ihcnt⟩ := ih (fx ++ [buildActual fc])
          (fun j hj => hbnd j (List.mem_cons_of_mem i hj)) hndt hownx
        refine ⟨ihown, ?_⟩
        intro j hj
        rw [ihcnt j hj, pickCnt_append]
        by_cases hji : j = i
        · subst hji
          have hjnu : ¬ j ∈ used := fun hmem => hu ((contains_iff_mem_nat used j).mpr hmem)
          rw [if_pos hmatch, if_neg (fun h => hint h.1), if_pos ⟨List.mem_cons_self j t, hjnu⟩]
        · have hm : matchesCourse (buildActual fc) (courses.getD j emptyCourse) = false := by
            rw [Bool.eq_false_iff]
            intro hmm
            exact hji (matchesCourse_unique_idx courses hwf.2.2 j i hj hi _ hmm hmatch)
          have hiff : (j ∈ t ∧ ¬ j ∈ used) ↔ (j ∈ i :: t ∧ ¬ j ∈ used) := by
            constructor
            · exact fun ⟨h1, h2⟩ => ⟨List.mem_cons_of_mem i h1, h2⟩
            · rintro ⟨h1, h2⟩
              rcases List.mem_cons.mp h1 with rfl | h3
              · exact absurd rfl hji
              · exact ⟨h3, h2⟩
          rw [hm]
          simp only [Bool.false_eq_true, if_false, add_zero, if_congr hiff rfl rfl]

theorem fixB_spec (courses : List Course) (hwf : WFCourses courses)
    (classes : List RawClass) :
    (∀ j, j < courses.length →
      pickCnt (fixB courses classes) (courses.getD j emptyCourse) = 1) ∧
    (∀ x ∈ fixB courses classes, fromOwn courses x) := by
  obtain ⟨hbnd, hnodup, hcnt, hown⟩ := matchedB_MState courses hwf classes
  obtain ⟨hown2, hcnt2⟩ := fixMissingB_fold courses hwf (matchedB courses classes).2
    (List.range courses.length) (matchedB courses classes).1
    (fun i hi => List.mem_range.mp hi) (List.nodup_range (n := courses.length)) hown
  constructor
  · intro j hj
    unfold fixB fixMissingB
    rw [hcnt2 j hj, hcnt j hj]
    by_cases hjm : j ∈ (matchedB courses classes).2
    · rw [if_pos hjm, if_neg (fun h => h.2 hjm)]
    · rw [if_neg hjm, if_pos ⟨List.mem_range.mpr hj, hjm⟩]
  · intro x hx
    unfold fixB fixMissingB at hx
    exact hown2 x hx

theorem validateAndFix_mem (courses : List Course) (raws : List RawSchedule)
    (s : Schedule) (hs : s ∈ validateAndFix courses raws) :
    ∃ classes, s.classes = fixA courses classes ∨ s.classes = fixB courses classes := by
  unfold validateAndFix at hs
  rcases List.mem_map.mp hs with ⟨a, _, rfl⟩
  by_cases h1 : a.classes.length = courses.length
  · refine ⟨a.classes, Or.inr ?_⟩
    simp only [if_pos h1]
    split <;> rfl
  · exact ⟨a.classes, Or.inl (by simp only [if_neg h1])⟩

theorem validateAndFix_length (courses : List Course) (raws : List RawSchedule) :
    (validateAndFix courses raws).length = raws.length := by
  unfold validateAndFix
  simp

theorem sIns_perm (x : ScheduleClass) (l : List ScheduleClass) :
    (sIns x l).Perm (x :: l) := by
  induction l with
  | nil => exact List.Perm.refl _
  | cons y r ih =>
    unfold sIns
    split
    · exact List.Perm.refl _
    · exact List.Perm.trans (List.Perm.cons y ih) (List.Perm.swap x y r)

theorem sortClasses_perm (l : List ScheduleClass) : (sortClasses l).Perm l := by
  induction l with
  | nil => exact List.Perm.refl _
  | cons x r ih =>
    unfold sortClasses
    exact List.Perm.trans (sIns_perm x (sortClasses r)) (List.Perm.cons x ih)

theorem pickCnt_perm (cs1 cs2 : List ScheduleClass) (h : cs1.Perm cs2) (c : Course) :
    pickCnt cs1 c = pickCnt cs2 c := by
  unfold pickCnt
  exact (h.filter _).length_eq

theorem contains_iff_mem_str (l : List String) (s : String) : l.contains s = true ↔ s ∈ l := by
  simp

theorem dedupStep_skip (acc : List Schedule × List String) (sch : Schedule)
    (hc : acc.2.contains (rawKey (sortClasses sch.classes)) = true) :
    dedupStep acc sch = acc := by
  simp only [dedupStep, hc, if_true, ite_true]

theorem dedupStep_push (acc : List Schedule × List String) (sch : Schedule)
    (hc : acc.2.contains (rawKey (sortClasses sch.classes)) = false) :
    dedupStep acc sch =
      (acc.1 ++ [Schedule.mk sch.scheduleNumber (sortClasses sch.classes)],
        rawKey (sortClasses sch.classes) :: acc.2) := by
  simp only [dedupStep, hc, Bool.false_eq_true, if_false, ite_false]

theorem dedup_fold_mem : ∀ (l : List Schedule) (acc : List Schedule × List String)
    (s : Schedule), s ∈ (l.foldl dedupStep acc).1 →
    s ∈ acc.1 ∨ ∃ s0 ∈ l, s.classes = sortClasses s0.classes := by
  intro l
  induction l with
  | nil => intro acc s hs; exact Or.inl hs
  | cons a t ih =>
    intro acc s hs
    rw [List.foldl_cons] at hs
    rcases ih (dedupStep acc a) s hs with hs2 | ⟨s0, hs0, he⟩
    · by_cases hc : acc.2.contains (rawKey (sortClasses a.classes)) = true
      · rw [dedupStep_skip acc a hc] at hs2
        exact Or.inl hs2
      · rw [dedupStep_push acc a (Bool.eq_false_iff.mpr hc)] at hs2
        rcases List.mem_append.mp hs2 with hs3 | hs3
        · exact Or.inl hs3
        · have hsa : s = Schedule.mk a.scheduleNumber (sortClasses a.classes) := by
            simpa using hs3
          subst hsa
          exact Or.inr ⟨a, List.mem_cons_self a t, rfl⟩
    · exact Or.inr ⟨s0, List.mem_cons_of_mem a hs0, he⟩

theorem dedupSchedules_mem (l : List Schedule) (s : Schedule)
    (hs : s ∈ dedupSchedules l) : ∃ s0 ∈ l, s.classes = sortClasses s0.classes := by
  unfold dedupSchedules at hs
  rcases dedup_fold_mem l ([], []) s hs with h | h
  · simp at h
  · exact h

theorem dedup_fold_pairwise : ∀ (l : List Schedule) (acc : List Schedule × List String),
    acc.1.Pairwise (fun s1 s2 => rawKey s1.classes ≠ rawKey s2.classes) →
    (∀ x ∈ acc.1, rawKey x.classes ∈ acc.2) →
    (l.foldl dedupStep acc).1.Pairwise
      (fun s1 s2 => rawKey s1.classes ≠ rawKey s2.classes) := by
  intro l
  induction l with
  | nil => intro acc hp _; exact hp
  | cons a t ih =>
    intro acc hp hseen
    rw [List.foldl_cons]
    by_cases hc : acc.2.contains (rawKey (sortClasses a.classes)) = true
    · rw [dedupStep_skip acc a hc]
      exact ih acc hp hseen
    · rw [dedupStep_push acc a (Bool.eq_false_iff.mpr hc)]
      apply ih
      · rw [List.pairwise_append]
        refine ⟨hp, List.pairwise_singleton _ _, ?_⟩
        intro x hx y hy
        have hyx : y = Schedule.mk a.scheduleNumber (sortClasses a.classes) := by
          simpa using hy
        subst hyx
        intro heq
        have hxk : rawKey x.classes ∈ acc.2 := hseen x hx
        rw [heq] at hxk
        exact hc ((contains_iff_mem_str acc.2 _).mpr hxk)
      · intro x hx
        rcases List.mem_append.mp hx with hx2 | hx2
        · exact List.mem_cons_of_mem _ (hseen x hx2)
        · have hxa : x = Schedule.mk a.scheduleNumber (sortClasses a.classes) := by
            simpa using hx2
          subst hxa
          exact List.mem_cons_self _ _

theorem dedupSchedules_pairwise (l : List Schedule) :
    (dedupSchedules l).Pairwise (fun s1 s2 => rawKey s1.classes ≠ rawKey s2.classes) := by
  unfold dedupSchedules
  exact dedup_fold_pairwise l ([], []) (by simp) (by simp)

theorem dedupStep_length (acc : List Schedule × List String) (a : Schedule) :
    (dedupStep acc a).1.length ≤ acc.1.length + 1 := by
  by_cases hc : acc.2.contains (rawKey (sortClasses a.classes)) = true
  · rw [dedupStep_skip acc a hc]; omega
  · rw [dedupStep_push acc a (Bool.eq_false_iff.mpr hc)]
    simp

theorem dedup_fold_length : ∀ (l : List Schedule) (acc : List Schedule × List String),
    ((l.foldl dedupStep acc).1).length ≤ acc.1.length + l.length := by
  intro l
  induction l with
  | nil => intro acc; simp
  | cons a t ih =>
    intro acc
    rw [List.foldl_cons]
    have h1 := ih (dedupStep acc a)
    have h2 := dedupStep_length acc a
    simp only [List.length_cons]
    omega

theorem dedupSchedules_length (l : List Schedule) :
    (dedupSchedules l).length ≤ l.length := by
  unfold dedupSchedules
  have := dedup_fold_length l ([], [])
  simpa using this

theorem model_ok_elim (courses : List Course) (resp : ParsedResponse)
    (out : List Schedule) (h : generateSchedules courses resp = .ok out) :
    ∃ raws, resp = .schedules raws ∧
      out = dedupSchedules (validateAndFix courses raws) := by
  unfold generateSchedules at h
  split at h
  · exact absurd h (by simp)
  · split at h
    · exact absurd h (by simp)
    · split at h
      · exact absurd h (by simp)
      · exact absurd h (by simp)
      · exact absurd h (by simp)
      next raws =>
        refine ⟨raws, rfl, ?_⟩
        split at h
        · exact absurd h (by simp)
        · injection h with h2
          exact h2.symm

theorem model_ok_schedule_spec (courses : List Course) (resp : ParsedResponse)
    (out : List Schedule) (hwf : WFCourses courses)
    (h : generateSchedules courses resp = .ok out) (s : Schedule) (hs : s ∈ out) :
    (∀ c ∈ courses, pickCnt s.classes c = 1) ∧ (∀ x ∈ s.classes, fromOwn courses x) := by
  obtain ⟨raws, -, rfl⟩ := model_ok_elim courses resp out h
  obtain ⟨s0, hs0, hsc⟩ := dedupSchedules_mem _ s hs
  obtain ⟨classes, hfix⟩ := validateAndFix_mem courses raws s0 hs0
  have hperm : s.classes.Perm s0.classes := by
    rw [hsc]; exact sortClasses_perm s0.classes
  have hspec : (∀ j, j < courses.length →
      pickCnt s0.classes (courses.getD j emptyCourse) = 1) ∧
      (∀ x ∈ s0.classes, fromOwn courses x) := by
    rcases hfix with hfa | hfb
    · rw [hfa]; exact fixA_spec courses hwf classes
    · rw [hfb]; exact fixB_spec courses hwf classes
  constructor
  · intro c hc
    obtain ⟨j, hjlt, hgd⟩ : ∃ j, ∃ _ : j < courses.length, courses[j] = c :=
      List.mem_iff_getElem.mp hc
    have hgd2 : courses.getD j emptyCourse = c := by
      rw [List.getD_eq_getElem courses emptyCourse hjlt]
      exact hgd
    rw [pickCnt_perm _ _ hperm, ← hgd2]
    exact hspec.1 j hjlt
  · intro x hx
    exact hspec.2 x (hperm.mem_iff.mp hx)

/-- C4: within one returned result no two schedules are identical — in
fact no two returned schedules even share the same class-number sequence,
enforced by the seen-set of canonical keys (classes sorted by course key,
class numbers joined) checked before a schedule is accepted. -/
theorem c4_no_duplicate_schedules (courses : List Course) (resp : ParsedResponse)
    (out : List Schedule) (h : generateSchedules courses resp = .ok out) :
    out.Pairwise (fun s1 s2 =>
      s1.classes.map (fun c => c.classNumber) ≠ s2.classes.map (fun c => c.classNumber)) := by
  obtain ⟨raws, -, rfl⟩ := model_ok_elim courses resp out h
  have hkey : ∀ cs1 cs2 : List ScheduleClass,
      cs1.map (fun c => c.classNumber) = cs2.map (fun c => c.classNumber) →
      rawKey cs1 = rawKey cs2 := by
    intro cs1 cs2 hmap
    unfold rawKey
    have h1 : cs1.map (fun c => toString c.classNumber) =
        (cs1.map (fun c => c.classNumber)).map toString := by
      rw [List.map_map]; rfl
    have h2 : cs2.map (fun c => toString c.classNumber) =
        (cs2.map (fun c => c.classNumber)).map toString := by
      rw [List.map_map]; rfl
    rw [h1, h2, hmap]
  exact (dedupSchedules_pairwise (validateAndFix courses raws)).imp
    (fun hne heq => hne (hkey _ _ heq))

/-- C5: under well-formed courses (each with at least one candidate,
classes labelled with their course's key, distinct course keys), every
schedule in a returned result records exactly one pick per input course,
and every pick is drawn from its own course's candidate list. -/
theorem c5_one_pick_per_course (courses : List Course) (resp : ParsedResponse)
    (out : List Schedule) (hwf : WFCourses courses)
    (h : generateSchedules courses resp = .ok out) :
    ∀ s ∈ out, (∀ c ∈ courses, pickCnt s.classes c = 1) ∧
      (∀ x ∈ s.classes, fromOwn courses x) := by
  intro s hs
  exact model_ok_schedule_spec courses resp out hwf h s hs

/-- C7 (amended): the pipeline never returns more schedules than the model
response contains — validation yields one schedule per response schedule
and the duplicate filter only removes — but no cap of five is enforced
anywhere. -/
theorem c7_at_most_response_length (courses : List Course) (raws : List RawSchedule)
    (out : List Schedule)
    (h : generateSchedules courses (.schedules raws) = .ok out) :
    out.length ≤ raws.length := by
  obtain ⟨raws2, heq, rfl⟩ := model_ok_elim courses (.schedules raws) out h
  have hr : raws2 = raws := by
    injection heq.symm
  subst hr
  calc (dedupSchedules (validateAndFix courses raws2)).length
      ≤ (validateAndFix courses raws2).length := dedupSchedules_length _
    _ = raws2.length := validateAndFix_length courses raws2

/-- C8: a course with exactly one candidate is pinned — in every returned
schedule the pick recorded for that course's key is exactly that single
candidate's class number. -/
theorem c8_single_candidate_pinned (courses : List Course) (resp : ParsedResponse)
    (out : List Schedule) (c : Course) (single : CourseClass)
    (hwf : WFCourses courses) (hc : c ∈ courses) (hone : c.classes = [single])
    (h : generateSchedules courses resp = .ok out) :
    ∀ s ∈ out, (s.classes.filter (fun x => matchesCourse x c)).map
      (fun x => x.classNumber) = [single.classNumber] := by
  intro s hs
  obtain ⟨hcnt, hown⟩ := model_ok_schedule_spec courses resp out hwf h s hs
  have h1 : pickCnt s.classes c = 1 := hcnt c hc
  unfold pickCnt at h1
  cases hfil : s.classes.filter (fun x => matchesCourse x c) with
  | nil => rw [hfil] at h1; simp at h1
  | cons x rest =>
    rw [hfil] at h1
    have hrest : rest = [] := by
      simp only [List.length_cons] at h1
      exact List.eq_nil_of_length_eq_zero (by omega)
    subst hrest
    have hxmem : x ∈ s.classes.filter (fun x => matchesCourse x c) := by
      rw [hfil]; exact List.mem_cons_self x []
    have hxm : matchesCourse x c = true := (List.mem_filter.mp hxmem).2
    have hxs : x ∈ s.classes := (List.mem_filter.mp hxmem).1
    obtain ⟨c2, hc2, hxm2, cc, hccm, hccn⟩ := hown x hxs
    have hcc2 : c2 = c := match_same_course courses hwf.2.2 c2 c hc2 hc x hxm2 hxm
    subst hcc2
    rw [hone] at hccm
    have hccs : cc = single := by simpa using hccm
    subst hccs
    simp [hccn]

/-! ## Claim theorems on concrete runs -/

/-- C1: the claim fails on the code — conflict checking is disabled in
`generateSchedules` (lines 1088–1089), so a model response pairing two
overlapping classes from different courses is returned as a schedule, and
the repository's own (unused) `checkTimeConflicts` flags that returned
schedule as conflicting. -/
theorem c1_conflicting_schedule_returned :
    (generateSchedules [c1CourseA, c1CourseB] c1Resp).map
      (fun out => out.map (fun s => checkTimeConflicts s.classes)) =
      Except.ok [true] := by
  rfl

/-- C3 counterexample: for a well-formed infeasible input (two
single-candidate courses whose classes overlap), the code converts the
model's infeasibility report into a thrown error — there is no normal
result value. -/
theorem c3_counterexample :
    c3Courses.length = 2 ∧ firstMissingTime c3Courses = none ∧
      (generateSchedules c3Courses (.errorObj c3Msg)).isOk = false :=
  ⟨rfl, rfl, rfl⟩

/-- C3 (amended): for every non-empty course list that passes prompt
construction, an infeasibility report from the model is rethrown as an
error carrying the reason message — infeasibility is signalled by
throwing, never by a normal result value. -/
theorem c3_infeasibility_throws (courses : List Course) (msg : String)
    (h1 : ¬ courses.length = 0) (h2 : firstMissingTime courses = none) :
    generateSchedules courses (.errorObj msg) = .error msg := by
  unfold generateSchedules
  rw [if_neg h1, h2]

/-- Witness for C3 at a concrete input. -/
theorem c3_witness : generateSchedules c3Courses (.errorObj "m") = .error "m" :=
  c3_infeasibility_throws c3Courses "m" (by decide) (by rfl)

/-- C6 counterexample: a course with zero candidates is not rejected —
generation proceeds past the input checks and even returns a success
result whose schedule silently omits the empty course. -/
theorem c6_counterexample :
    (generateSchedules [c6Course] (.schedules [⟨1, []⟩])).isOk = true := by
  rfl

/-- C6 (amended): the only fail-fast input validation is the empty course
list, rejected with the `No courses provided` error; zero-candidate
courses and any requested maximum are not validated. -/
theorem c6_only_empty_rejected (resp : ParsedResponse) :
    generateSchedules [] resp = .error "No courses provided" := by
  rfl

/-- C7 counterexample: when the model response contains six distinct
conflict-free schedules, all six are returned — the requested maximum of
five is stated only inside the prompt and never enforced. -/
theorem c7_counterexample :
    (generateSchedules [c7Course] (.schedules c7Raws)).map List.length =
      Except.ok 6 := by
  rfl

/-- Witness for C7's amended bound at a concrete input. -/
theorem c7_witness :
    ([Schedule.mk 1 [⟨"PSY", "1010", 701, "TuTh", "TuTh 08:00-09:20"⟩]] : List Schedule).length ≤
      ([⟨1, [⟨"PSY", "1010", 701⟩]⟩] : List RawSchedule).length :=
  c7_at_most_response_length [c7wCourse] [⟨1, [⟨"PSY", "1010", 701⟩]⟩] _ rfl

/-- Witness for C4: the two schedules returned for a two-candidate course
carry different class-number sequences. -/
theorem c4_witness :
    (Schedule.mk 1 [⟨"HIST", "1330", 301, "M", "M 09:00-09:50"⟩]).classes.map
        (fun c => c.classNumber) ≠
      (Schedule.mk 2 [⟨"HIST", "1330", 302, "M", "M 10:00-10:50"⟩]).classes.map
        (fun c => c.classNumber) :=
  List.rel_of_pairwise_cons
    (c4_no_duplicate_schedules [c4Course]
      (.schedules [⟨1, [⟨"HIST", "1330", 301⟩]⟩, ⟨2, [⟨"HIST", "1330", 302⟩]⟩])
      [Schedule.mk 1 [⟨"HIST", "1330", 301, "M", "M 09:00-09:50"⟩],
       Schedule.mk 2 [⟨"HIST", "1330", 302, "M", "M 10:00-10:50"⟩]] rfl)
    (List.mem_cons_self _ _)

/-- Witness for C5 at a concrete run: the single returned schedule records
exactly one pick for the input course. -/
theorem c5_witness :
    pickCnt [(⟨"BIO", "1010", 401, "MW", "MW 08:00-08:50"⟩ : ScheduleClass)] c5Course = 1 :=
  ((c5_one_pick_per_course [c5Course] (.schedules [⟨1, [⟨"BIO", "1010", 401⟩]⟩])
      [Schedule.mk 1 [⟨"BIO", "1010", 401, "MW", "MW 08:00-08:50"⟩]]
      (by decide) rfl)
    (Schedule.mk 1 [⟨"BIO", "1010", 401, "MW", "MW 08:00-08:50"⟩])
    (List.mem_cons_self _ _)).1 c5Course (List.mem_cons_self _ _)

/-- Witness for C8 at a concrete run: the single-candidate course `ART
1100` is pinned to class 801 in the returned schedule. -/
theorem c8_witness :
    ((Schedule.mk 1
        [⟨"ART", "1100", 801, "F", "F 13:00-14:00"⟩,
         ⟨"MUS", "1200", 901, "Tu", "Tu 09:00-09:50"⟩]).classes.filter
      (fun x => matchesCourse x c8CourseA)).map (fun x => x.classNumber) = [801] := by
  have h := c8_single_candidate_pinned [c8CourseA, c8CourseB]
    (.schedules [⟨1, [⟨"ART", "1100", 801⟩, ⟨"MUS", "1200", 901⟩]⟩])
    [Schedule.mk 1
      [⟨"ART", "1100", 801, "F", "F 13:00-14:00"⟩,
       ⟨"MUS", "1200", 901, "Tu", "Tu 09:00-09:50"⟩]]
    c8CourseA ⟨"ART", "1100", 801, "", "", [⟨["F"], "13:00", "14:00"⟩]⟩
    (by decide) (List.mem_cons_self _ _) rfl rfl
    (Schedule.mk 1
      [⟨"ART", "1100", 801, "F", "F 13:00-14:00"⟩,
       ⟨"MUS", "1200", 901, "Tu", "Tu 09:00-09:50"⟩])
    (List.mem_cons_self _ _)
  exact h
